import Mathlib

/-!
Verification of the `baal/session-server` repository.

The development shallowly embeds `src/main.rs` (user records, the session
manager with its overlay tiers, the save pipeline, and the request handler)
into Lean.  Strings are modelled as `List Char`, machine integers as
`Int`/`Nat` with explicit `% 2 ^ w` where wrap-around can occur, and every
I/O interaction (the CDB codec, file operations, the clock, the RNG) is an
explicit parameter or environment record.  Fallible operations return
`Except`.
-/

/-- Byte strings of the Rust program, modelled as lists of characters. -/
abbrev Str := List Char

/-- Whitespace test used by `char::is_whitespace`, `split_whitespace`,
`trim` and `String::find(char::is_whitespace)` (restricted to the ASCII
whitespace characters that can occur in the stored lines). -/
def wsChar (c : Char) : Bool :=
  c = ' ' || c = '\t' || c = '\n' || c = '\r'

/-- Model of Rust `str::trim`. -/
def trimChars (l : Str) : Str :=
  ((l.dropWhile wsChar).reverse.dropWhile wsChar).reverse

/-- Accumulator worker for `split_whitespace`: `acc` holds the reversed
characters of the token currently being scanned. -/
def splitWsAux : List Char → List Char → List (List Char)
  | [], acc => if acc.isEmpty then [] else [acc.reverse]
  | c :: cs, acc =>
    if wsChar c then
      if acc.isEmpty then splitWsAux cs [] else acc.reverse :: splitWsAux cs []
    else
      splitWsAux cs (c :: acc)

/-- Model of Rust `str::split_whitespace` (as a materialised list of
tokens; the Rust iterator is consumed positionally). -/
def splitWs (l : Str) : List Str := splitWsAux l []

/-- Joining tokens with single spaces; `User::to_string` produces exactly
this shape. -/
def joinTokens : List Str → Str
  | [] => []
  | [t] => t
  | t :: t2 :: ts => t ++ ' ' :: joinTokens (t2 :: ts)

theorem splitWsAux_nonws (t : List Char) (h : ∀ c ∈ t, wsChar c = false) :
    ∀ rest acc, splitWsAux (t ++ rest) acc = splitWsAux rest (t.reverse ++ acc) := by
  induction t with
  | nil => intro rest acc; simp
  | cons c cs ih =>
    intro rest acc
    have hc : wsChar c = false := h c (by simp)
    have hcs : ∀ d ∈ cs, wsChar d = false := fun d hd => h d (by simp [hd])
    have step : splitWsAux ((c :: cs) ++ rest) acc = splitWsAux (cs ++ rest) (c :: acc) := by
      simp [splitWsAux, hc]
    rw [step, ih hcs rest (c :: acc)]
    simp

theorem splitWsAux_ws_head (cs : List Char) (c : Char) (hc : wsChar c = true) (acc : List Char) :
    splitWsAux (c :: cs) acc =
      (if acc.isEmpty then splitWsAux cs [] else acc.reverse :: splitWsAux cs []) := by
  simp [splitWsAux, hc]

theorem splitWs_joinTokens (ts : List Str)
    (h : ∀ t ∈ ts, t ≠ [] ∧ ∀ c ∈ t, wsChar c = false) :
    splitWs (joinTokens ts) = ts := by
  induction ts with
  | nil => rfl
  | cons t ts ih =>
    obtain ⟨hne, hnws⟩ := h t (by simp)
    have hrevne : t.reverse.isEmpty = false := by
      cases t with
      | nil => exact absurd rfl hne
      | cons a as => simp [List.isEmpty_iff]
    cases ts with
    | nil =>
      show splitWsAux (joinTokens [t]) [] = [t]
      have : joinTokens [t] = t ++ [] := by simp [joinTokens]
      rw [this, splitWsAux_nonws t hnws [] []]
      simp [splitWsAux, hrevne]
    | cons t2 ts2 =>
      have hrest : ∀ u ∈ t2 :: ts2, u ≠ [] ∧ ∀ c ∈ u, wsChar c = false :=
        fun u hu => h u (by simp [hu])
      show splitWsAux (joinTokens (t :: t2 :: ts2)) [] = t :: t2 :: ts2
      have hj : joinTokens (t :: t2 :: ts2) = t ++ ' ' :: joinTokens (t2 :: ts2) := rfl
      rw [hj, splitWsAux_nonws t hnws (' ' :: joinTokens (t2 :: ts2)) []]
      rw [splitWsAux_ws_head _ ' ' (by simp [wsChar]) _]
      simp only [List.append_nil, hrevne, Bool.false_eq_true, if_false, List.reverse_reverse]
      exact congrArg (fun l => t :: l) (ih hrest)

theorem dropWhile_all_ws (l : Str) (h : ∀ c ∈ l, wsChar c = true) :
    l.dropWhile wsChar = [] := by
  induction l with
  | nil => rfl
  | cons c cs ih =>
    have := h c (by simp)
    simp only [List.dropWhile_cons, this, if_true]
    exact ih (fun d hd => h d (by simp [hd]))

theorem trimChars_all_ws (l : Str) (h : ∀ c ∈ l, wsChar c = true) :
    trimChars l = [] := by
  unfold trimChars
  rw [dropWhile_all_ws l h]
  rfl

/-! Decimal digit serialization, mirroring Rust's integer `to_string` and
`from_str_radix(_, 10).unwrap_or(0)`. -/

/-- The character for one decimal digit (Rust formats with `'0' + d`). -/
def digitChar (d : Nat) : Char := Char.ofNat (48 + d)

/-- Fuel-indexed digit emitter: prepends the decimal digits of `n` to
`acc`.  The fuel is only consumed while `10 ≤ n`. -/
def natToCharsAux : Nat → Nat → List Char → List Char
  | 0, _, acc => acc
  | fuel + 1, n, acc =>
    if n < 10 then digitChar n :: acc
    else natToCharsAux fuel (n / 10) (digitChar (n % 10) :: acc)

/-- Decimal representation of a natural number, as Rust `to_string`. -/
def natToChars (n : Nat) : Str := natToCharsAux (n + 1) n []

/-- Decimal representation of `i64` values, as Rust `to_string`. -/
def intToChars (i : Int) : Str :=
  if i < 0 then '-' :: natToChars (-i).toNat else natToChars i.toNat

/-- Value of a decimal digit character. -/
def digitVal (c : Char) : Option Nat :=
  if 48 ≤ c.toNat ∧ c.toNat ≤ 57 then some (c.toNat - 48) else none

/-- Digit-folding worker of `from_str_radix`. -/
def parseGo : List Char → Nat → Option Nat
  | [], a => some a
  | c :: cs, a =>
    match digitVal c with
    | some d => parseGo cs (a * 10 + d)
    | none => none

/-- Parse a non-empty all-digit string (`from_str_radix` rejects the empty
string). -/
def parseDigits : List Char → Option Nat
  | [] => none
  | c :: cs => parseGo (c :: cs) 0

/-- Signed decimal parse: `from_str_radix` accepts an optional leading
`+` or `-` before the digits. -/
def parseSigned (s : Str) : Option Int :=
  match s with
  | [] => none
  | c :: cs =>
    if c = '-' then (parseDigits cs).map (fun n => -(n : Int))
    else if c = '+' then (parseDigits cs).map (fun n => (n : Int))
    else (parseDigits (c :: cs)).map (fun n => (n : Int))

def i64Min : Int := -(2 ^ 63)
def i64Max : Int := 2 ^ 63 - 1

/-- Model of `i64::from_str_radix(s, 10)`: syntax errors and overflow both
yield `none` (the caller applies `unwrap_or(0)`). -/
def parseI64 (s : Str) : Option Int :=
  match parseSigned s with
  | some v => if i64Min ≤ v ∧ v ≤ i64Max then some v else none
  | none => none

/-- Digit-and-bound part of `u64::from_str_radix`. -/
def u64Core (l : List Char) : Option Nat :=
  match parseDigits l with
  | some n => if n < 2 ^ 64 then some n else none
  | none => none

/-- Model of `u64::from_str_radix(s, 10)`: optional leading `+`, digits,
overflow check. -/
def parseU64 : Str → Option Nat
  | [] => none
  | c :: cs => if c = '+' then u64Core cs else u64Core (c :: cs)

theorem digitVal_digitChar (d : Nat) (h : d < 10) : digitVal (digitChar d) = some d := by
  interval_cases d <;> decide

theorem natToCharsAux_cons (fuel n : Nat) (acc : List Char) (h : n < fuel) :
    ∃ d rest, d < 10 ∧ natToCharsAux fuel n acc = digitChar d :: rest := by
  induction fuel generalizing n acc with
  | zero => omega
  | succ fuel ih =>
    by_cases hn : n < 10
    · exact ⟨n, acc, hn, by simp [natToCharsAux, hn]⟩
    · have hdiv : n / 10 < fuel := by omega
      obtain ⟨d, rest, hd, heq⟩ := ih (n / 10) (digitChar (n % 10) :: acc) hdiv
      exact ⟨d, rest, hd, by simp [natToCharsAux, hn, heq]⟩

theorem parseGo_natToCharsAux (fuel : Nat) :
    ∀ n acc, n < fuel → parseGo (natToCharsAux fuel n acc) 0 = parseGo acc n := by
  induction fuel with
  | zero => intro n acc h; omega
  | succ fuel ih =>
    intro n acc h
    by_cases hn : n < 10
    · simp [natToCharsAux, hn, parseGo, digitVal_digitChar n hn]
    · have hdiv : n / 10 < fuel := by omega
      have hstep := ih (n / 10) (digitChar (n % 10) :: acc) hdiv
      simp only [natToCharsAux, hn, if_false]
      rw [hstep]
      have hm : n % 10 < 10 := Nat.mod_lt _ (by omega)
      simp only [parseGo, digitVal_digitChar _ hm]
      congr 1
      omega

theorem parseDigits_natToChars (n : Nat) : parseDigits (natToChars n) = some n := by
  obtain ⟨d, rest, hd, heq⟩ := natToCharsAux_cons (n + 1) n [] (by omega)
  unfold natToChars
  rw [heq, parseDigits]
  rw [← heq]
  rw [parseGo_natToCharsAux (n + 1) n [] (by omega)]
  rfl

theorem natToCharsAux_chars (fuel : Nat) :
    ∀ n acc, n < fuel → ∀ c ∈ natToCharsAux fuel n acc,
      c ∈ acc ∨ ∃ d, d < 10 ∧ c = digitChar d := by
  induction fuel with
  | zero => intro n acc h; omega
  | succ fuel ih =>
    intro n acc h c hc
    by_cases hn : n < 10
    · simp only [natToCharsAux, hn, if_true] at hc
      rw [List.mem_cons] at hc
      rcases hc with hc | hc
      · exact Or.inr ⟨n, hn, hc⟩
      · exact Or.inl hc
    · have hdiv : n / 10 < fuel := by omega
      simp only [natToCharsAux, hn, if_false] at hc
      rcases ih (n / 10) (digitChar (n % 10) :: acc) hdiv c hc with hc2 | hc2
      · rw [List.mem_cons] at hc2
        rcases hc2 with hc2 | hc2
        · exact Or.inr ⟨n % 10, Nat.mod_lt _ (by omega), hc2⟩
        · exact Or.inl hc2
      · exact Or.inr hc2

theorem natToChars_chars (n : Nat) :
    ∀ c ∈ natToChars n, ∃ d, d < 10 ∧ c = digitChar d := by
  intro c hc
  rcases natToCharsAux_chars (n + 1) n [] (by omega) c hc with h | h
  · simp at h
  · exact h

theorem natToChars_ne_nil (n : Nat) : natToChars n ≠ [] := by
  obtain ⟨d, rest, _, heq⟩ := natToCharsAux_cons (n + 1) n [] (by omega)
  unfold natToChars
  rw [heq]
  simp

theorem digitChar_not_ws (d : Nat) (h : d < 10) : wsChar (digitChar d) = false := by
  interval_cases d <;> decide

theorem natToChars_not_ws (n : Nat) : ∀ c ∈ natToChars n, wsChar c = false := by
  intro c hc
  obtain ⟨d, hd, rfl⟩ := natToChars_chars n c hc
  exact digitChar_not_ws d hd

theorem intToChars_ne_nil (i : Int) : intToChars i ≠ [] := by
  unfold intToChars
  split
  · simp
  · exact natToChars_ne_nil _

theorem intToChars_not_ws (i : Int) : ∀ c ∈ intToChars i, wsChar c = false := by
  intro c hc
  unfold intToChars at hc
  split at hc
  · rw [List.mem_cons] at hc
    rcases hc with hc | hc
    · subst hc; decide
    · exact natToChars_not_ws _ c hc
  · exact natToChars_not_ws _ c hc

theorem digitChar_ne_minus (d : Nat) (h : d < 10) : digitChar d ≠ '-' := by
  interval_cases d <;> decide

theorem digitChar_ne_plus (d : Nat) (h : d < 10) : digitChar d ≠ '+' := by
  interval_cases d <;> decide

theorem parseSigned_natToChars (n : Nat) : parseSigned (natToChars n) = some (n : Int) := by
  obtain ⟨d, rest, hd, heq⟩ := natToCharsAux_cons (n + 1) n [] (by omega)
  have hchars : natToChars n = digitChar d :: rest := heq
  rw [hchars, parseSigned]
  rw [if_neg (digitChar_ne_minus d hd), if_neg (digitChar_ne_plus d hd)]
  rw [← hchars, parseDigits_natToChars n]
  rfl

theorem parseSigned_intToChars (i : Int) : parseSigned (intToChars i) = some i := by
  unfold intToChars
  by_cases hneg : i < 0
  · rw [if_pos hneg]
    have h1 : parseSigned ('-' :: natToChars (-i).toNat) =
        (parseDigits (natToChars (-i).toNat)).map (fun n => -(n : Int)) := by
      rw [parseSigned]; simp
    rw [h1, parseDigits_natToChars]
    have hval : -((((-i).toNat) : Nat) : Int) = i := by
      have := Int.toNat_of_nonneg (a := -i) (by omega)
      omega
    show some (-((((-i).toNat) : Nat) : Int)) = some i
    exact congrArg some hval
  · rw [if_neg hneg]
    rw [parseSigned_natToChars]
    have hval : ((i.toNat : Nat) : Int) = i := Int.toNat_of_nonneg (by omega)
    rw [hval]

theorem parseI64_intToChars (i : Int) (h1 : i64Min ≤ i) (h2 : i ≤ i64Max) :
    parseI64 (intToChars i) = some i := by
  unfold parseI64
  rw [parseSigned_intToChars]
  simp [h1, h2]

theorem parseU64_natToChars (n : Nat) (h : n < 2 ^ 64) :
    parseU64 (natToChars n) = some n := by
  obtain ⟨d, rest, hd, heq⟩ := natToCharsAux_cons (n + 1) n [] (by omega)
  have hchars : natToChars n = digitChar d :: rest := heq
  have hplus : digitChar d ≠ '+' := digitChar_ne_plus d hd
  rw [hchars]
  show parseU64 (digitChar d :: rest) = some n
  rw [parseU64, if_neg hplus, ← hchars]
  unfold u64Core
  rw [parseDigits_natToChars]
  show (if n < 2 ^ 64 then some n else none) = some n
  rw [if_pos h]

/-! The `User` record (struct `User` in `main.rs`). -/

/-- A user record; field order and types mirror the Rust struct
(`i64` timestamps as `Int`, `u64 fail_count` as `Nat`). -/
structure User where
  name : Str
  password : Str
  created : Int
  updated : Int
  deleted : Int
  last_loggedin : Int
  failed : Int
  fail_count : Nat
  locked : Int
deriving DecidableEq

/-- `User::new`: fresh record with `created = now` and all other numeric
fields zero (`now` is the value of `time::get_time().sec`). -/
def User.new (name password : Str) (now : Int) : User :=
  { name := name, password := password, created := now, updated := 0,
    deleted := 0, last_loggedin := 0, failed := 0, fail_count := 0, locked := 0 }

/-- `parts.next().map_or(0, |s| i64::from_str_radix(s, 10).unwrap_or(0))`. -/
def parseFieldI (o : Option Str) : Int :=
  match o with
  | none => 0
  | some s => (parseI64 s).getD 0

/-- `parts.next().map_or(0, |s| u64::from_str_radix(s, 10).unwrap_or(0))`. -/
def parseFieldN (o : Option Str) : Nat :=
  match o with
  | none => 0
  | some s => (parseU64 s).getD 0

/-- `User::parse`: tokenise `rest` on whitespace and assign the tokens
positionally; missing or malformed tokens default to `0` (empty string
for the password). -/
def User.parse (name rest : Str) : User :=
  let ps := splitWs rest
  { name := name
  , password := (ps.get? 0).getD []
  , created := parseFieldI (ps.get? 1)
  , updated := parseFieldI (ps.get? 2)
  , deleted := parseFieldI (ps.get? 3)
  , last_loggedin := parseFieldI (ps.get? 4)
  , failed := parseFieldI (ps.get? 5)
  , fail_count := parseFieldN (ps.get? 6)
  , locked := parseFieldI (ps.get? 7) }

/-- `User::to_string`: the canonical line, tokens separated by single
spaces (`'\x20'`). -/
def User.to_string (u : User) : Str :=
  u.name ++ (' ' :: (u.password ++ (' ' :: (intToChars u.created ++ (' ' ::
    (intToChars u.updated ++ (' ' :: (intToChars u.deleted ++ (' ' ::
    (intToChars u.last_loggedin ++ (' ' :: (intToChars u.failed ++ (' ' ::
    (natToChars u.fail_count ++ (' ' :: intToChars u.locked)))))))))))))))

/-- `User::is_deleted`. -/
def User.is_deleted (u : User) : Bool := decide (u.deleted ≠ 0)

/-- `User::is_locked`. -/
def User.is_locked (u : User) : Bool := decide (u.locked ≠ 0)

/-! Association-list model of the `HashMap`s held by the manager. -/

def alookup {α : Type} : List (Str × α) → Str → Option α
  | [], _ => none
  | p :: rest, k => if k = p.1 then some p.2 else alookup rest k

/-- In-place mutation of the entry at key `k` (the effect of
`get_mut(k)` followed by field assignments). -/
def amodify {α : Type} (l : List (Str × α)) (k : Str) (f : α → α) : List (Str × α) :=
  l.map (fun p => if p.1 = k then (p.1, f p.2) else p)

/-- Removal of key `k` (`HashMap::remove`). -/
def aerase {α : Type} (l : List (Str × α)) (k : Str) : List (Str × α) :=
  l.filter (fun p => decide (p.1 ≠ k))

theorem alookup_cons {α : Type} (k : Str) (v : α) (l : List (Str × α)) (k2 : Str) :
    alookup ((k, v) :: l) k2 = if k2 = k then some v else alookup l k2 := rfl

theorem alookup_cons2 {α : Type} (x : Str × α) (xs : List (Str × α)) (k2 : Str) :
    alookup (x :: xs) k2 = if k2 = x.1 then some x.2 else alookup xs k2 := rfl

theorem amodify_cons {α : Type} (p : Str × α) (rest : List (Str × α)) (k : Str) (f : α → α) :
    amodify (p :: rest) k f = (if p.1 = k then (p.1, f p.2) else p) :: amodify rest k f := rfl

theorem aerase_cons {α : Type} (p : Str × α) (rest : List (Str × α)) (k : Str) :
    aerase (p :: rest) k = if p.1 = k then aerase rest k else p :: aerase rest k := by
  simp only [aerase, List.filter_cons]
  by_cases h : p.1 = k
  · simp [h]
  · simp [h]

theorem alookup_amodify {α : Type} (l : List (Str × α)) (k : Str) (f : α → α) (k2 : Str) :
    alookup (amodify l k f) k2 =
      if k2 = k then (alookup l k).map f else alookup l k2 := by
  induction l with
  | nil => simp [alookup, amodify]
  | cons p rest ih =>
    rw [amodify_cons]
    by_cases h1 : p.1 = k
    · rw [if_pos h1]
      by_cases h2 : k2 = p.1
      · have h3 : k2 = k := h2.trans h1
        rw [alookup_cons, if_pos h2, if_pos h3, alookup_cons2, if_pos h1.symm]
        rfl
      · have h3 : ¬(k2 = k) := fun hc => h2 (hc.trans h1.symm)
        rw [alookup_cons, if_neg h2, ih, if_neg h3, if_neg h3, alookup_cons2, if_neg h2]
    · rw [if_neg h1]
      by_cases h2 : k2 = p.1
      · have h3 : ¬(k2 = k) := fun hc => h1 (h2.symm.trans hc)
        rw [alookup_cons2, if_pos h2, if_neg h3, alookup_cons2, if_pos h2]
      · rw [alookup_cons2, if_neg h2, ih]
        by_cases h3 : k2 = k
        · have h4 : ¬(k = p.1) := fun hc => h1 hc.symm
          rw [if_pos h3, if_pos h3, alookup_cons2, if_neg h4]
        · rw [if_neg h3, if_neg h3, alookup_cons2, if_neg h2]

theorem alookup_aerase {α : Type} (l : List (Str × α)) (k k2 : Str) :
    alookup (aerase l k) k2 = if k2 = k then none else alookup l k2 := by
  induction l with
  | nil => simp [alookup, aerase]
  | cons p rest ih =>
    rw [aerase_cons]
    by_cases h1 : p.1 = k
    · rw [if_pos h1, ih]
      by_cases h3 : k2 = k
      · rw [if_pos h3, if_pos h3]
      · have h2 : ¬(k2 = p.1) := fun hc => h3 (hc.trans h1)
        rw [if_neg h3, if_neg h3, alookup_cons2, if_neg h2]
    · rw [if_neg h1, alookup_cons2]
      by_cases h2 : k2 = p.1
      · have h3 : ¬(k2 = k) := fun hc => h1 (h2.symm.trans hc)
        rw [if_pos h2, if_neg h3, alookup_cons2, if_pos h2]
      · rw [if_neg h2, ih]
        by_cases h3 : k2 = k
        · rw [if_pos h3, if_pos h3]
        · rw [if_neg h3, if_neg h3, alookup_cons2, if_neg h2]

/-! The session table and the manager state. -/

/-- struct `Session`: owning user name and last-access time. -/
structure SessionRec where
  name : Str
  last_accessed : Int
deriving DecidableEq

/-- struct `SessionManager` (the file paths are left out: the base tier
is passed to each operation as a lookup oracle `Str → Option Str`
modelling `cdb::cdb_get` on the live CDB, with `none` covering both
`NotFound` and I/O errors, as the code coerces both). -/
structure Manager where
  seqno : Nat
  sessions : List (Str × SessionRec)
  created_users : List (Str × User)
  updated_users : List (Str × User)
deriving DecidableEq

def LOCK_COUNT : Nat := 5
def SESSION_PERIOD : Int := 3600

def AUTH_FAILED : Str := "Authentication failed.".toList
def LOGIN_FAILED : Str := "Login failed.".toList
def SESSION_NOT_FOUND : Str := "Session not found.".toList
def USER_EXISTS : Str := "User already exists.".toList
def USER_NOT_FOUND : Str := "User not found.".toList
def EXPORT_FAILED : Str := "Export failed.".toList
def IMPORT_FAILED : Str := "Import failed.".toList

/-! Token generation (`bytes_to_string`, `create_session_id`). -/

/-- One nibble rendered as in `bytes_to_string`: `'0' + h` for `h ≤ 9`,
`'A' + h - 10` for `10 ≤ h ≤ 15` (each guard pushes one character). -/
def nibbleChar (h : Nat) : List Char :=
  if h ≤ 9 then [Char.ofNat (48 + h)]
  else if 10 ≤ h ∧ h ≤ 15 then [Char.ofNat (65 + (h - 10))]
  else []

/-- The two hex characters of one byte: high nibble `b >> 4 & 15`, then
low nibble `b & 15`. -/
def nibbleChars (b : Nat) : List Char :=
  nibbleChar ((b >>> 4) &&& 15) ++ nibbleChar (b &&& 15)

/-- `bytes_to_string`: uppercase hex encoding, two characters per byte. -/
def bytes_to_string (bytes : List Nat) : Str :=
  (bytes.map nibbleChars).flatten

/-- `create_session_id`: 15 RNG bytes (passed in as `rand`), then the
sequence byte, which steps `seqno` as
`if seqno == u8::MAX { 0 } else { seqno + 1 }`.  Returns the token and
the new `seqno`. -/
def create_session_id (seqno : Nat) (rand : List Nat) : Str × Nat :=
  let s2 := if seqno = 255 then 0 else seqno + 1
  (bytes_to_string (rand.take 15 ++ [s2]), s2)

/-- Token minting followed by `sessions.insert(id, Session::new(name))`. -/
def mintSession (m : Manager) (name : Str) (now : Int) (rand : List Nat) : Str × Manager :=
  let p := create_session_id m.seqno rand
  (p.1, { m with seqno := p.2,
                 sessions := (p.1, ⟨name, now⟩) :: aerase m.sessions p.1 })

/-! The manager operations. -/

/-- The password-check-and-mutate block shared (textually repeated) by the
three tiers of `auth` and `login`.  `checkDel` is false exactly in the
`created_users` branch, which tests only `is_locked`; `setLogin` is true
for `login`, which also stamps `last_loggedin`.  `fail_count` is a `u64`,
so its increment wraps modulo `2 ^ 64`. -/
def authTry (checkDel setLogin : Bool) (u : User) (pass : Str) (now : Int) : Bool × User :=
  if !u.is_locked && (!checkDel || !u.is_deleted) then
    if u.password = pass then
      (true, { u with fail_count := 0,
                      last_loggedin := if setLogin then now else u.last_loggedin })
    else
      let fc := (u.fail_count + 1) % 2 ^ 64
      (false, { u with failed := now, fail_count := fc,
                       locked := if LOCK_COUNT ≤ fc then now else u.locked })
  else (false, u)

/-- `SessionManager::auth`: tiers probed in order created, updated, base;
a base hit is parsed and inserted into `updated_users`. -/
def auth (m : Manager) (base : Str → Option Str) (name pass : Str) (now : Int) :
    Except Str Unit × Manager :=
  match alookup m.created_users name with
  | some u =>
    let r := authTry false false u pass now
    (if r.1 then .ok () else .error AUTH_FAILED,
     { m with created_users := amodify m.created_users name (fun _ => r.2) })
  | none =>
    match alookup m.updated_users name with
    | some u =>
      let r := authTry true false u pass now
      (if r.1 then .ok () else .error AUTH_FAILED,
       { m with updated_users := amodify m.updated_users name (fun _ => r.2) })
    | none =>
      match base name with
      | some s =>
        let r := authTry true false (User.parse name s) pass now
        (if r.1 then .ok () else .error AUTH_FAILED,
         { m with updated_users := (name, r.2) :: m.updated_users })
      | none => (.error AUTH_FAILED, m)

/-- `SessionManager::login`: like `auth` but also stamps `last_loggedin`
and, on success, mints a session and returns the token. -/
def login (m : Manager) (base : Str → Option Str) (name pass : Str) (now : Int)
    (rand : List Nat) : Except Str Str × Manager :=
  let step : Bool × Manager :=
    match alookup m.created_users name with
    | some u =>
      let r := authTry false true u pass now
      (r.1, { m with created_users := amodify m.created_users name (fun _ => r.2) })
    | none =>
      match alookup m.updated_users name with
      | some u =>
        let r := authTry true true u pass now
        (r.1, { m with updated_users := amodify m.updated_users name (fun _ => r.2) })
      | none =>
        match base name with
        | some s =>
          let r := authTry true true (User.parse name s) pass now
          (r.1, { m with updated_users := (name, r.2) :: m.updated_users })
        | none => (false, m)
  if step.1 then
    let p := mintSession step.2 name now rand
    (.ok p.1, p.2)
  else (.error LOGIN_FAILED, step.2)

/-- `SessionManager::is_logged_in`: on a live session refresh
`last_accessed` and return the session's user name; otherwise fail
without touching the table. -/
def is_logged_in (m : Manager) (tok : Str) (now : Int) : Except Str Str × Manager :=
  match alookup m.sessions tok with
  | some s =>
    if s.last_accessed + SESSION_PERIOD > now then
      (.ok s.name,
       { m with sessions := amodify m.sessions tok (fun t => { t with last_accessed := now }) })
    else (.error SESSION_NOT_FOUND, m)
  | none => (.error SESSION_NOT_FOUND, m)

/-- `SessionManager::logout`: remove the session, returning its name. -/
def logout (m : Manager) (tok : Str) : Except Str Str × Manager :=
  match alookup m.sessions tok with
  | some s => (.ok s.name, { m with sessions := aerase m.sessions tok })
  | none => (.error SESSION_NOT_FOUND, m)

/-- `SessionManager::create_user`. -/
def create_user (m : Manager) (base : Str → Option Str) (name pass : Str) (now : Int)
    (rand : List Nat) : Except Str Str × Manager :=
  if (alookup m.created_users name).isNone ∧ (alookup m.updated_users name).isNone ∧
      (base name).isNone then
    let m1 := { m with created_users := (name, User.new name pass now) :: m.created_users }
    let p := mintSession m1 name now rand
    (.ok p.1, p.2)
  else (.error USER_EXISTS, m)

/-- `SessionManager::update_user`. -/
def update_user (m : Manager) (base : Str → Option Str) (name pass : Str) (now : Int) :
    Except Str Unit × Manager :=
  match alookup m.created_users name with
  | some _ =>
    (.ok (), { m with created_users := amodify m.created_users name (fun u => { u with password := pass, updated := now }) })
  | none =>
    match alookup m.updated_users name with
    | some u =>
      if u.is_deleted then (.error USER_NOT_FOUND, m)
      else
        (.ok (), { m with updated_users := amodify m.updated_users name (fun v => { v with password := pass, updated := now }) })
    | none =>
      match base name with
      | some s =>
        let u := User.parse name s
        if u.is_deleted then (.error USER_NOT_FOUND, m)
        else
          (.ok (), { m with updated_users := (name, { u with password := pass, updated := now }) :: m.updated_users })
      | none => (.error USER_NOT_FOUND, m)

/-- `SessionManager::delete_user`. -/
def delete_user (m : Manager) (base : Str → Option Str) (name : Str) (now : Int) :
    Except Str Unit × Manager :=
  if (alookup m.created_users name).isSome then
    (.ok (), { m with created_users := aerase m.created_users name })
  else
    match alookup m.updated_users name with
    | some u =>
      if u.is_deleted then (.error USER_NOT_FOUND, m)
      else
        (.ok (), { m with updated_users := amodify m.updated_users name (fun v => { v with deleted := now }) })
    | none =>
      match base name with
      | some s =>
        let u := User.parse name s
        if u.is_deleted then (.error USER_NOT_FOUND, m)
        else
          (.ok (), { m with updated_users := (name, { u with deleted := now }) :: m.updated_users })
      | none => (.error USER_NOT_FOUND, m)

/-- The conceptual lookup: created, then updated, then base (first hit
wins), a base hit being parsed through `User::parse`. -/
def mgrFind (m : Manager) (base : Str → Option Str) (name : Str) : Option User :=
  match alookup m.created_users name with
  | some u => some u
  | none =>
    match alookup m.updated_users name with
    | some u => some u
    | none => (base name).map (fun s => User.parse name s)

/-! The save pipeline (`SessionManager::save`). -/

/-- enum `SaveError`: a fixed message or an I/O error (carried with its
textual description). -/
inductive SaveErr where
  | msg (s : Str)
  | io (s : Str)
deriving DecidableEq

/-- Environment for one `save` call: the outcome of every I/O step.
`exportRes` is `some lines` when `cdb_export` succeeds and the dump reads
back as `lines` (without trailing newlines); `writeFailAt = some k` makes
the `(k+1)`-th `writer.write` call fail; the remaining flags give the
outcomes of `File::open(users.old)`, `File::create(users.new)`,
`flush`, `cdb_import` and `fs::rename`; `ioMsg` is the description of
whichever I/O error occurs. -/
structure SaveEnv where
  exportRes : Option (List Str)
  openOldOk : Bool
  createNewOk : Bool
  writeFailAt : Option Nat
  flushOk : Bool
  importOk : Bool
  renameOk : Bool
  ioMsg : Str
deriving DecidableEq

/-- The merge loop of `save`: for each dump line that contains whitespace,
take the prefix before the first whitespace as the name; a line whose name
is in `updated_users` is replaced by the formatted overlay record,
any other such line is copied verbatim; lines without whitespace are
skipped. -/
def mergeLines (updated : List (Str × User)) : List Str → List Str
  | [] => []
  | line :: rest =>
    match line.findIdx? (fun c => wsChar c) with
    | some pos =>
      match alookup updated (line.take pos) with
      | some u => u.to_string :: mergeLines updated rest
      | none => line :: mergeLines updated rest
    | none => mergeLines updated rest

/-- Everything written to `users.new`: the merged dump lines followed by
one formatted line per `created_users` entry. -/
def mergedOutput (lines : List Str) (updated created : List (Str × User)) : List Str :=
  mergeLines updated lines ++ created.map (fun p => p.2.to_string)

/-- Result of one `save` call: the returned value, the manager afterwards,
and the lines actually written to `users.new`. -/
structure SaveOut where
  res : Except SaveErr Unit
  mgr : Manager
  written : List Str

/-- The tail of `save` after all line writes succeeded: flush, import,
rename, and only then clear both overlay tiers. -/
def saveFinish (m : Manager) (env : SaveEnv) (out : List Str) : SaveOut :=
  if !env.flushOk then ⟨.error (.io env.ioMsg), m, out⟩
  else if !env.importOk then ⟨.error (.msg IMPORT_FAILED), m, out⟩
  else if !env.renameOk then ⟨.error (.io env.ioMsg), m, out⟩
  else ⟨.ok (), { m with created_users := [], updated_users := [] }, out⟩

/-- `SessionManager::save`: export, open both text files, write the merged
lines (each line is one buffered `write` call and any `?` failure aborts
with the overlays untouched), then `saveFinish`. -/
def save (m : Manager) (env : SaveEnv) : SaveOut :=
  match env.exportRes with
  | none => ⟨.error (.msg EXPORT_FAILED), m, []⟩
  | some lines =>
    if !env.openOldOk then ⟨.error (.io env.ioMsg), m, []⟩
    else if !env.createNewOk then ⟨.error (.io env.ioMsg), m, []⟩
    else
      let out := mergedOutput lines m.updated_users m.created_users
      match env.writeFailAt with
      | some k =>
        if k < out.length then ⟨.error (.io env.ioMsg), m, out.take k⟩
        else saveFinish m env out
      | none => saveFinish m env out

/-! The request handler (`handler` in `main.rs`). -/

/-- Environment for one handler invocation: the clock value, the RNG bytes
for a possible token mint, and the I/O outcomes of a possible save. -/
structure HandlerEnv where
  now : Int
  rand : List Nat
  saveEnv : SaveEnv

def OK_CRLF : Str := "OK\r\n".toList
def OK_SP : Str := "OK ".toList
def NG_SP : Str := "NG ".toList
def CRLF : Str := "\r\n".toList
def ERROR_CRLF : Str := "ERROR\r\n".toList

/-- The per-connection handler: trim the request line, tokenise on
whitespace, dispatch on the first token; each returned list element is one
`writer.write` call.  When the line yields no first token the body of
`if let Some(cmd)` is skipped entirely and nothing is written. -/
def handler (m : Manager) (base : Str → Option Str) (env : HandlerEnv) (line : Str) :
    List Str × Manager :=
  match splitWs (trimChars line) with
  | [] => ([], m)
  | cmd :: args =>
    let arg0 := (args.get? 0).getD []
    let arg1 := (args.get? 1).getD []
    if cmd = "AUTH".toList then
      match auth m base arg0 arg1 env.now with
      | (.ok _, m2) => ([OK_CRLF], m2)
      | (.error e, m2) => ([NG_SP, e, CRLF], m2)
    else if cmd = "LOGIN".toList then
      match login m base arg0 arg1 env.now env.rand with
      | (.ok sid, m2) => ([OK_SP, sid, CRLF], m2)
      | (.error e, m2) => ([NG_SP, e, CRLF], m2)
    else if cmd = "SESSION".toList then
      match is_logged_in m arg0 env.now with
      | (.ok nm, m2) => ([OK_SP, nm, CRLF], m2)
      | (.error e, m2) => ([NG_SP, e, CRLF], m2)
    else if cmd = "LOGOUT".toList then
      match logout m arg0 with
      | (.ok nm, m2) => ([OK_SP, nm, CRLF], m2)
      | (.error e, m2) => ([NG_SP, e, CRLF], m2)
    else if cmd = "CREATE".toList then
      match create_user m base arg0 arg1 env.now env.rand with
      | (.ok sid, m2) => ([OK_SP, sid, CRLF], m2)
      | (.error e, m2) => ([NG_SP, e, CRLF], m2)
    else if cmd = "UPDATE".toList then
      match update_user m base arg0 arg1 env.now with
      | (.ok _, m2) => ([OK_CRLF], m2)
      | (.error e, m2) => ([NG_SP, e, CRLF], m2)
    else if cmd = "DELETE".toList then
      match delete_user m base arg0 env.now with
      | (.ok _, m2) => ([OK_CRLF], m2)
      | (.error e, m2) => ([NG_SP, e, CRLF], m2)
    else if cmd = "SAVE".toList then
      let so := save m env.saveEnv
      match so.res with
      | .ok _ => ([OK_CRLF], so.mgr)
      | .error (.msg s) => ([NG_SP, s, CRLF], so.mgr)
      | .error (.io s) => ([NG_SP, s, CRLF], so.mgr)
    else ([ERROR_CRLF], m)

/-! Claim theorems. -/

def exceptIsOk {e a : Type} : Except e a → Bool
  | .ok _ => true
  | .error _ => false

theorem saveFinish_mgr (m : Manager) (env : SaveEnv) (out : List Str) :
    (saveFinish m env out).mgr =
      (if exceptIsOk (saveFinish m env out).res then
        { m with created_users := [], updated_users := [] }
      else m) := by
  unfold saveFinish
  cases env.flushOk <;> cases env.importOk <;> cases env.renameOk <;> simp [exceptIsOk]

theorem save_mgr_eq (m : Manager) (env : SaveEnv) :
    (save m env).mgr =
      (if exceptIsOk (save m env).res then
        { m with created_users := [], updated_users := [] }
      else m) := by
  unfold save
  cases henv : env.exportRes with
  | none => simp [exceptIsOk]
  | some lines =>
    cases ho : env.openOldOk
    · simp [exceptIsOk]
    · cases hc : env.createNewOk
      · simp [exceptIsOk]
      · simp only [Bool.not_true, Bool.false_eq_true, if_false]
        cases hw : env.writeFailAt with
        | none => exact saveFinish_mgr m env _
        | some k =>
          by_cases hk : k < (mergedOutput lines m.updated_users m.created_users).length
          · simp [hk, exceptIsOk]
          · simp only [hk, if_false]
            exact saveFinish_mgr m env _

/-- C1: `save` clears the overlay tiers exactly on success: when the
result is `Ok` the manager afterwards has both `created_users` and
`updated_users` empty, and on any error (export failure, any I/O failure
while opening, writing, flushing or renaming, or import failure — all the
error outcomes expressible in `SaveEnv`) the manager is exactly the one
from before the call. -/
theorem save_clears_overlays_exactly_on_success (m : Manager) (env : SaveEnv) :
    (save m env).mgr =
      (if exceptIsOk (save m env).res then
        { m with created_users := [], updated_users := [] }
      else m) :=
  save_mgr_eq m env

/-- C2: the text handed to `cdb_import` is exactly: for each dump line
with a whitespace separator, `format(updated_users[name])` when the
name-prefix is a key of `updated_users` and the line verbatim otherwise
(lines without any whitespace are dropped), followed by one `format(u)`
line per `created_users` entry — so a tombstoned user in `updated_users`
is rewritten as its formatted record (which carries its `deleted` stamp)
rather than removed. -/
theorem merged_text_spec (lines : List Str) (updated created : List (Str × User)) :
    mergedOutput lines updated created =
      (lines.filterMap (fun line =>
        match line.findIdx? (fun c => wsChar c) with
        | some pos =>
          match alookup updated (line.take pos) with
          | some u => some u.to_string
          | none => some line
        | none => none))
      ++ created.map (fun p => p.2.to_string) := by
  unfold mergedOutput
  congr 1
  induction lines with
  | nil => rfl
  | cons line rest ih =>
    unfold mergeLines
    cases hf : line.findIdx? (fun c => wsChar c) with
    | none => simp [List.filterMap_cons, hf, ih]
    | some pos =>
      cases hl : alookup updated (line.take pos) with
      | some u => simp [List.filterMap_cons, hf, hl, ih]
      | none => simp [List.filterMap_cons, hf, hl, ih]

theorem delete_user_sessions_eq (m : Manager) (base : Str → Option Str) (name : Str) (now : Int) :
    ((delete_user m base name now).2).sessions = m.sessions := by
  unfold delete_user
  by_cases h1 : (alookup m.created_users name).isSome
  · simp [h1]
  · simp only [h1, Bool.false_eq_true, if_false]
    cases h2 : alookup m.updated_users name with
    | some u =>
      by_cases h3 : u.is_deleted
      · simp [h3]
      · simp [h3]
    | none =>
      cases h4 : base name with
      | some s =>
        by_cases h5 : (User.parse name s).is_deleted
        · simp [h5]
        · simp [h5]
      | none => simp

theorem is_logged_in_congr (m1 m2 : Manager) (h : m1.sessions = m2.sessions) (tok : Str) (now : Int) :
    (is_logged_in m1 tok now).1 = (is_logged_in m2 tok now).1 := by
  unfold is_logged_in
  rw [h]
  cases alookup m2.sessions tok with
  | none => rfl
  | some s =>
    by_cases hp : s.last_accessed + SESSION_PERIOD > now
    · simp [hp]
    · simp [hp]

/-- C9: `delete_user` leaves the session table unchanged (whether it
succeeds or fails), so `is_logged_in` answers identically — with the
same user name — on every token before and after the call. -/
theorem delete_user_preserves_sessions (m : Manager) (base : Str → Option Str)
    (name : Str) (now : Int) :
    ((delete_user m base name now).2).sessions = m.sessions ∧
    ∀ tok now2,
      (is_logged_in ((delete_user m base name now).2) tok now2).1 =
        (is_logged_in m tok now2).1 :=
  ⟨delete_user_sessions_eq m base name now,
   fun tok now2 =>
     is_logged_in_congr _ m (delete_user_sessions_eq m base name now) tok now2⟩

/-- C10: a request line that is empty or entirely whitespace produces no
first token, so the handler writes nothing at all — not even the `ERROR`
line — and leaves the manager untouched. -/
theorem handler_silent_on_blank_line (m : Manager) (base : Str → Option Str)
    (env : HandlerEnv) (line : Str) (h : ∀ c ∈ line, wsChar c = true) :
    handler m base env line = ([], m) := by
  unfold handler
  rw [trimChars_all_ws line h]
  rfl

theorem handler_silent_on_blank_line_witness :
    handler ⟨0, [], [], []⟩ (fun _ => none)
      ⟨0, [], ⟨none, true, true, none, true, true, true, []⟩⟩ [' ', '\t'] =
      ([], ⟨0, [], [], []⟩) :=
  handler_silent_on_blank_line ⟨0, [], [], []⟩ (fun _ => none)
    ⟨0, [], ⟨none, true, true, none, true, true, true, []⟩⟩ [' ', '\t'] (by decide)

/-- C5: `is_logged_in` succeeds exactly when the table holds the token
with `last_accessed + SESSION_PERIOD > now`; on success it stamps
`last_accessed := now` and returns the session's user name, leaving all
other entries alone; otherwise it returns `Session not found.` with the
whole manager — in particular the session table, so no expired session is
removed — unchanged. -/
theorem is_logged_in_hit (m : Manager) (tok : Str) (now : Int) (s : SessionRec)
    (hs : alookup m.sessions tok = some s) (hp : s.last_accessed + SESSION_PERIOD > now) :
    is_logged_in m tok now =
      (.ok s.name,
       { m with sessions := amodify m.sessions tok (fun t => { t with last_accessed := now }) }) := by
  unfold is_logged_in
  simp only [hs]
  rw [if_pos hp]

theorem is_logged_in_stale (m : Manager) (tok : Str) (now : Int) (s : SessionRec)
    (hs : alookup m.sessions tok = some s) (hp : ¬ s.last_accessed + SESSION_PERIOD > now) :
    is_logged_in m tok now = (.error SESSION_NOT_FOUND, m) := by
  unfold is_logged_in
  simp only [hs]
  rw [if_neg hp]

theorem is_logged_in_miss (m : Manager) (tok : Str) (now : Int)
    (hs : alookup m.sessions tok = none) :
    is_logged_in m tok now = (.error SESSION_NOT_FOUND, m) := by
  unfold is_logged_in
  simp only [hs]

theorem is_logged_in_spec (m : Manager) (tok : Str) (now : Int) :
    (exceptIsOk (is_logged_in m tok now).1 = true ↔
      ∃ s, alookup m.sessions tok = some s ∧ s.last_accessed + SESSION_PERIOD > now) ∧
    (∀ s, alookup m.sessions tok = some s → s.last_accessed + SESSION_PERIOD > now →
      (is_logged_in m tok now).1 = .ok s.name ∧
      alookup ((is_logged_in m tok now).2).sessions tok = some { s with last_accessed := now } ∧
      ∀ tok2, tok2 ≠ tok →
        alookup ((is_logged_in m tok now).2).sessions tok2 = alookup m.sessions tok2) ∧
    ((¬ ∃ s, alookup m.sessions tok = some s ∧ s.last_accessed + SESSION_PERIOD > now) →
      is_logged_in m tok now = (.error SESSION_NOT_FOUND, m)) := by
  cases hs : alookup m.sessions tok with
  | none =>
    rw [is_logged_in_miss m tok now hs]
    refine ⟨⟨fun h => by exact absurd h (by simp [exceptIsOk]), ?_⟩, ?_, fun _ => rfl⟩
    · rintro ⟨s, hs2, _⟩
      cases hs2
    · intro s hs2
      cases hs2
  | some s =>
    by_cases hp : s.last_accessed + SESSION_PERIOD > now
    · rw [is_logged_in_hit m tok now s hs hp]
      refine ⟨⟨fun _ => ⟨s, rfl, hp⟩, fun _ => rfl⟩, ?_, ?_⟩
      · intro s2 hs2 hp2
        cases hs2
        refine ⟨rfl, ?_, ?_⟩
        · show alookup (amodify m.sessions tok (fun t => { t with last_accessed := now })) tok = _
          rw [alookup_amodify, if_pos rfl, hs]
          rfl
        · intro tok2 hne
          show alookup (amodify m.sessions tok (fun t => { t with last_accessed := now })) tok2 = _
          rw [alookup_amodify, if_neg hne]
      · intro hno
        exact absurd ⟨s, rfl, hp⟩ hno
    · rw [is_logged_in_stale m tok now s hs hp]
      refine ⟨⟨fun h => by exact absurd h (by simp [exceptIsOk]), ?_⟩, ?_, fun _ => rfl⟩
      · rintro ⟨s2, hs2, hp2⟩
        cases hs2
        exact absurd hp2 hp
      · intro s2 hs2 hp2
        cases hs2
        exact absurd hp2 hp

theorem is_logged_in_spec_witness :
    (is_logged_in ⟨0, [(['t'], ⟨['u'], 10⟩)], [], []⟩ ['t'] 20).1 = .ok ['u'] :=
  ((is_logged_in_spec ⟨0, [(['t'], ⟨['u'], 10⟩)], [], []⟩ ['t'] 20).2.1
    ⟨['u'], 10⟩ (by decide) (by decide)).1

/-! C7: token shape and the sequence byte. -/

/-- Uppercase-hexadecimal character test. -/
def isHexUpper (c : Char) : Bool :=
  decide (('0' ≤ c ∧ c ≤ '9') ∨ ('A' ≤ c ∧ c ≤ 'F'))

theorem nibbleChar_len (h : Nat) (hh : h ≤ 15) : (nibbleChar h).length = 1 := by
  interval_cases h <;> decide

theorem nibbleChar_hex (h : Nat) (hh : h ≤ 15) :
    ∀ c ∈ nibbleChar h, isHexUpper c = true := by
  interval_cases h <;> decide

theorem nibbleChar_inj_lt :
    ∀ x, x < 16 → ∀ y, y < 16 → nibbleChar x = nibbleChar y → x = y := by decide

set_option maxRecDepth 4096 in
theorem nibble_recomb : ∀ b, b < 256 → ((b >>> 4) &&& 15) * 16 + (b &&& 15) = b := by decide

theorem nibbleChars_len (b : Nat) : (nibbleChars b).length = 2 := by
  unfold nibbleChars
  rw [List.length_append, nibbleChar_len _ Nat.and_le_right, nibbleChar_len _ Nat.and_le_right]

theorem nibbleChars_hex (b : Nat) : ∀ c ∈ nibbleChars b, isHexUpper c = true := by
  intro c hc
  unfold nibbleChars at hc
  rw [List.mem_append] at hc
  rcases hc with hc | hc
  · exact nibbleChar_hex _ Nat.and_le_right c hc
  · exact nibbleChar_hex _ Nat.and_le_right c hc

theorem nibbleChars_inj (b b2 : Nat) (hb : b < 256) (hb2 : b2 < 256)
    (h : nibbleChars b = nibbleChars b2) : b = b2 := by
  unfold nibbleChars at h
  have hlen : (nibbleChar ((b >>> 4) &&& 15)).length = (nibbleChar ((b2 >>> 4) &&& 15)).length := by
    rw [nibbleChar_len _ Nat.and_le_right, nibbleChar_len _ Nat.and_le_right]
  obtain ⟨h1, h2⟩ := List.append_inj h hlen
  have hb16 : ∀ x : Nat, x &&& 15 < 16 := fun x => Nat.lt_of_le_of_lt Nat.and_le_right (by omega)
  have hhi : (b >>> 4) &&& 15 = (b2 >>> 4) &&& 15 :=
    nibbleChar_inj_lt _ (hb16 _) _ (hb16 _) h1
  have hlo : b &&& 15 = b2 &&& 15 :=
    nibbleChar_inj_lt _ (hb16 _) _ (hb16 _) h2
  have hr1 := nibble_recomb b hb
  have hr2 := nibble_recomb b2 hb2
  omega

theorem bytes_to_string_append (a b : List Nat) :
    bytes_to_string (a ++ b) = bytes_to_string a ++ bytes_to_string b := by
  simp [bytes_to_string]

theorem bytes_to_string_len (bytes : List Nat) :
    (bytes_to_string bytes).length = 2 * bytes.length := by
  induction bytes with
  | nil => rfl
  | cons b bs ih =>
    have : bytes_to_string (b :: bs) = nibbleChars b ++ bytes_to_string bs := by
      simp [bytes_to_string]
    rw [this, List.length_append, nibbleChars_len, ih, List.length_cons]
    omega

theorem bytes_to_string_hex (bytes : List Nat) :
    ∀ c ∈ bytes_to_string bytes, isHexUpper c = true := by
  induction bytes with
  | nil => intro c hc; cases hc
  | cons b bs ih =>
    intro c hc
    have he : bytes_to_string (b :: bs) = nibbleChars b ++ bytes_to_string bs := by
      simp [bytes_to_string]
    rw [he, List.mem_append] at hc
    rcases hc with hc | hc
    · exact nibbleChars_hex b c hc
    · exact ih c hc

theorem bytes_to_string_single (b : Nat) : bytes_to_string [b] = nibbleChars b := by
  simp [bytes_to_string]

/-- C7: every token is 32 uppercase-hex characters; its last two
characters are the hex encoding of the post-increment sequence byte,
which advances by one modulo 256 on each call; hence the tokens of two
consecutive calls differ in their final encoded byte. -/
theorem create_session_id_spec (s : Nat) (rand : List Nat) (hs : s < 256)
    (hlen : rand.length = 15) (hb : ∀ b ∈ rand, b < 256) :
    ((create_session_id s rand).1).length = 32 ∧
    (∀ c ∈ (create_session_id s rand).1, isHexUpper c = true) ∧
    (create_session_id s rand).2 = (s + 1) % 256 ∧
    ((create_session_id s rand).1).drop 30 = nibbleChars ((s + 1) % 256) ∧
    (∀ rand2 : List Nat, rand2.length = 15 →
      ((create_session_id ((create_session_id s rand).2) rand2).1).drop 30 ≠
        ((create_session_id s rand).1).drop 30) := by
  have hstep : ∀ x, x < 256 → (if x = 255 then 0 else x + 1) = (x + 1) % 256 := by
    intro x hx
    by_cases hx2 : x = 255
    · subst hx2; rfl
    · rw [if_neg hx2, Nat.mod_eq_of_lt (by omega)]
  have htake : rand.take 15 = rand := by
    rw [← hlen]
    exact List.take_length rand
  have hsplit : (create_session_id s rand).1 =
      bytes_to_string rand ++ nibbleChars (if s = 255 then 0 else s + 1) := by
    show bytes_to_string (rand.take 15 ++ [if s = 255 then 0 else s + 1]) = _
    rw [htake, bytes_to_string_append, bytes_to_string_single]
  have hlen30 : (bytes_to_string rand).length = 30 := by
    rw [bytes_to_string_len, hlen]
  have hdrop : ((create_session_id s rand).1).drop 30 = nibbleChars ((s + 1) % 256) := by
    rw [hsplit, ← hlen30, List.drop_left, hstep s hs]
  have hs2eq : (create_session_id s rand).2 = (s + 1) % 256 := by
    show (if s = 255 then 0 else s + 1) = (s + 1) % 256
    exact hstep s hs
  refine ⟨?_, ?_, hs2eq, hdrop, ?_⟩
  · rw [hsplit, List.length_append, hlen30, nibbleChars_len]
  · intro c hc
    rw [hsplit, List.mem_append] at hc
    rcases hc with hc | hc
    · exact bytes_to_string_hex rand c hc
    · exact nibbleChars_hex _ c hc
  · intro rand2 hlen2
    have hs2lt : (s + 1) % 256 < 256 := Nat.mod_lt _ (by omega)
    have htake2 : rand2.take 15 = rand2 := by
      rw [← hlen2]
      exact List.take_length rand2
    have hsplit2 : (create_session_id ((create_session_id s rand).2) rand2).1 =
        bytes_to_string rand2 ++
          nibbleChars (if (create_session_id s rand).2 = 255 then 0
            else (create_session_id s rand).2 + 1) := by
      show bytes_to_string (rand2.take 15 ++ [_]) = _
      rw [htake2, bytes_to_string_append, bytes_to_string_single]
    have hlen30b : (bytes_to_string rand2).length = 30 := by
      rw [bytes_to_string_len, hlen2]
    have hdrop2 : ((create_session_id ((create_session_id s rand).2) rand2).1).drop 30 =
        nibbleChars (((s + 1) % 256 + 1) % 256) := by
      rw [hsplit2, ← hlen30b, List.drop_left, hs2eq, hstep _ hs2lt]
    rw [hdrop2, hdrop]
    intro hcontra
    have hne : ((s + 1) % 256 + 1) % 256 ≠ (s + 1) % 256 := by
      by_cases h255 : (s + 1) % 256 = 255
      · rw [h255]; decide
      · rw [Nat.mod_eq_of_lt (by omega)]; omega
    exact hne (nibbleChars_inj _ _ (Nat.mod_lt _ (by omega)) hs2lt hcontra)

theorem create_session_id_spec_witness :
    ((create_session_id 3 (List.replicate 15 0)).1).length = 32 :=
  (create_session_id_spec 3 (List.replicate 15 0) (by decide) (by decide) (by decide)).1

/-! C4: create_user. -/

/-- C4: `create_user` fails with `User already exists.` exactly when the
name is a key of `created_users`, a key of `updated_users` (tombstoned or
not), or present in the base CDB; otherwise it prepends the fresh record
`User::new` (created = now, every other numeric field 0) to
`created_users`, mints a session for the name and returns its token; on
the error path the manager is unchanged. -/
theorem create_user_spec (m : Manager) (base : Str → Option Str) (name pass : Str)
    (now : Int) (rand : List Nat) :
    ((create_user m base name pass now rand).1 = .error USER_EXISTS ↔
      ((alookup m.created_users name).isSome ∨ (alookup m.updated_users name).isSome ∨
        (base name).isSome)) ∧
    ((alookup m.created_users name).isNone ∧ (alookup m.updated_users name).isNone ∧
        (base name).isNone →
      (create_user m base name pass now rand).1 = .ok (create_session_id m.seqno rand).1 ∧
      alookup ((create_user m base name pass now rand).2).created_users name =
        some (User.new name pass now) ∧
      alookup ((create_user m base name pass now rand).2).sessions
        (create_session_id m.seqno rand).1 = some ⟨name, now⟩ ∧
      (User.new name pass now).created = now ∧ (User.new name pass now).updated = 0 ∧
      (User.new name pass now).deleted = 0 ∧ (User.new name pass now).last_loggedin = 0 ∧
      (User.new name pass now).failed = 0 ∧ (User.new name pass now).fail_count = 0 ∧
      (User.new name pass now).locked = 0) ∧
    (¬((alookup m.created_users name).isNone ∧ (alookup m.updated_users name).isNone ∧
        (base name).isNone) →
      (create_user m base name pass now rand).2 = m) := by
  have hiff : (¬((alookup m.created_users name).isNone ∧ (alookup m.updated_users name).isNone ∧
      (base name).isNone)) ↔
      ((alookup m.created_users name).isSome ∨ (alookup m.updated_users name).isSome ∨
        (base name).isSome) := by
    cases alookup m.created_users name <;> cases alookup m.updated_users name <;>
      cases base name <;> simp
  by_cases hcond : (alookup m.created_users name).isNone ∧
      (alookup m.updated_users name).isNone ∧ (base name).isNone
  · have hstep : create_user m base name pass now rand =
        (.ok (create_session_id m.seqno rand).1,
         { m with
            created_users := (name, User.new name pass now) :: m.created_users,
            seqno := (create_session_id m.seqno rand).2,
            sessions := ((create_session_id m.seqno rand).1, ⟨name, now⟩) ::
              aerase m.sessions (create_session_id m.seqno rand).1 }) := by
      unfold create_user mintSession
      rw [if_pos hcond]
    refine ⟨?_, ?_, ?_⟩
    · rw [hstep]
      constructor
      · intro h
        cases h
      · intro h
        exact absurd hcond (hiff.mpr h)
    · intro _
      rw [hstep]
      refine ⟨rfl, ?_, ?_, rfl, rfl, rfl, rfl, rfl, rfl, rfl⟩
      · rw [alookup_cons, if_pos rfl]
      · rw [alookup_cons, if_pos rfl]
    · intro h
      exact absurd hcond h
  · have hstep : create_user m base name pass now rand = (.error USER_EXISTS, m) := by
      unfold create_user
      rw [if_neg hcond]
    refine ⟨?_, ?_, ?_⟩
    · rw [hstep]
      exact ⟨fun _ => hiff.mp hcond, fun _ => rfl⟩
    · intro h
      exact absurd h hcond
    · intro _
      rw [hstep]

theorem create_user_spec_witness :
    (create_user ⟨0, [], [], []⟩ (fun _ => none) ['a'] ['p'] 5 (List.replicate 15 0)).1 =
      .ok (create_session_id 0 (List.replicate 15 0)).1 :=
  ((create_user_spec ⟨0, [], [], []⟩ (fun _ => none) ['a'] ['p'] 5
    (List.replicate 15 0)).2.1 (by decide)).1

/-! C6: parse/format round trip. -/

/-- `format(u)` with the leading name token and its separator removed:
`User.to_string` is exactly `name ++ ' ' :: formatRest`. -/
def formatRest (u : User) : Str :=
  u.password ++ (' ' :: (intToChars u.created ++ (' ' ::
    (intToChars u.updated ++ (' ' :: (intToChars u.deleted ++ (' ' ::
    (intToChars u.last_loggedin ++ (' ' :: (intToChars u.failed ++ (' ' ::
    (natToChars u.fail_count ++ (' ' :: intToChars u.locked)))))))))))))

theorem to_string_decomp (u : User) : u.to_string = u.name ++ ' ' :: formatRest u := rfl

/-- The numeric fields fit their machine types (`i64` timestamps,
`u64 fail_count`), as every Rust `User` value does. -/
def inRanges (u : User) : Prop :=
  i64Min ≤ u.created ∧ u.created ≤ i64Max ∧
  i64Min ≤ u.updated ∧ u.updated ≤ i64Max ∧
  i64Min ≤ u.deleted ∧ u.deleted ≤ i64Max ∧
  i64Min ≤ u.last_loggedin ∧ u.last_loggedin ≤ i64Max ∧
  i64Min ≤ u.failed ∧ u.failed ≤ i64Max ∧
  u.fail_count < 2 ^ 64 ∧
  i64Min ≤ u.locked ∧ u.locked ≤ i64Max

/-- C6 (amended): for a record whose name is non-empty without whitespace
and whose password is non-empty without whitespace (and whose numeric
fields fit their machine types), `User.parse` of the formatted line with
the leading name token removed returns the record unchanged; the second
conjunct ties `formatRest` to `User.to_string`. -/
theorem parse_format_roundtrip (u : User)
    (hname : u.name ≠ [] ∧ ∀ c ∈ u.name, wsChar c = false)
    (hpwne : u.password ≠ []) (hpw : ∀ c ∈ u.password, wsChar c = false)
    (hr : inRanges u) :
    User.parse u.name (formatRest u) = u ∧ u.to_string = u.name ++ ' ' :: formatRest u := by
  obtain ⟨nm, pw, cr, up, de, ll, fa, fc, lo⟩ := u
  obtain ⟨hc1, hc2, hu1, hu2, hd1, hd2, hl1, hl2, hf1, hf2, hfc, hk1, hk2⟩ := hr
  refine ⟨?_, rfl⟩
  have htoks : splitWs (formatRest ⟨nm, pw, cr, up, de, ll, fa, fc, lo⟩) =
      [pw, intToChars cr, intToChars up, intToChars de, intToChars ll,
       intToChars fa, natToChars fc, intToChars lo] := by
    have hj : formatRest ⟨nm, pw, cr, up, de, ll, fa, fc, lo⟩ =
        joinTokens [pw, intToChars cr, intToChars up, intToChars de, intToChars ll,
          intToChars fa, natToChars fc, intToChars lo] := rfl
    rw [hj]
    apply splitWs_joinTokens
    intro t ht
    simp only [List.mem_cons, List.not_mem_nil, or_false] at ht
    rcases ht with rfl | rfl | rfl | rfl | rfl | rfl | rfl | rfl
    · exact ⟨hpwne, hpw⟩
    · exact ⟨intToChars_ne_nil _, intToChars_not_ws _⟩
    · exact ⟨intToChars_ne_nil _, intToChars_not_ws _⟩
    · exact ⟨intToChars_ne_nil _, intToChars_not_ws _⟩
    · exact ⟨intToChars_ne_nil _, intToChars_not_ws _⟩
    · exact ⟨intToChars_ne_nil _, intToChars_not_ws _⟩
    · exact ⟨natToChars_ne_nil _, natToChars_not_ws _⟩
    · exact ⟨intToChars_ne_nil _, intToChars_not_ws _⟩
  simp only [User.parse, htoks, List.get?, Option.getD, parseFieldI, parseFieldN,
    parseI64_intToChars cr hc1 hc2, parseI64_intToChars up hu1 hu2,
    parseI64_intToChars de hd1 hd2, parseI64_intToChars ll hl1 hl2,
    parseI64_intToChars fa hf1 hf2, parseU64_natToChars fc hfc,
    parseI64_intToChars lo hk1 hk2]

/-- C6 counterexample: the record with name `a`, empty password and
`created = 1` is well-formed in the claim's sense (name non-empty without
whitespace, password without whitespace), yet parsing the formatted rest
does not return it: the empty password token vanishes in
`split_whitespace`, so every later field shifts one position. -/
theorem parse_format_roundtrip_cex :
    (let u : User := ⟨['a'], [], 1, 0, 0, 0, 0, 0, 0⟩
     u.name ≠ [] ∧ (∀ c ∈ u.name, wsChar c = false) ∧ (∀ c ∈ u.password, wsChar c = false) ∧
     u.to_string = u.name ++ ' ' :: formatRest u ∧
     User.parse u.name (formatRest u) ≠ u) := by decide

theorem parse_format_roundtrip_witness :
    User.parse ['a'] (formatRest ⟨['a'], ['p'], -3, 0, 0, 0, 0, 2, 7⟩) =
      ⟨['a'], ['p'], -3, 0, 0, 0, 0, 2, 7⟩ :=
  (parse_format_roundtrip ⟨['a'], ['p'], -3, 0, 0, 0, 0, 2, 7⟩
    ⟨by decide, by decide⟩ (by decide) (by decide)
    (by refine ⟨by decide, by decide, by decide, by decide, by decide, by decide, by decide,
      by decide, by decide, by decide, by decide, by decide, by decide⟩)).1

/-! C3: lockout accounting. -/

/-- The record after a wrong-password attempt on a live record:
`failed := now`, `fail_count` incremented (`u64` wrap), and
`locked := failed` once the count reaches `LOCK_COUNT`. -/
def wrongUpd (u : User) (now : Int) : User :=
  { u with failed := now, fail_count := (u.fail_count + 1) % 2 ^ 64,
           locked := if LOCK_COUNT ≤ (u.fail_count + 1) % 2 ^ 64 then now else u.locked }

theorem authTry_wrong (cd sl : Bool) (u : User) (pass : Str) (now : Int)
    (hl : u.locked = 0) (hd : u.deleted = 0) (hpass : ¬(u.password = pass)) :
    authTry cd sl u pass now = (false, wrongUpd u now) := by
  unfold authTry
  have hg : (!u.is_locked && (!cd || !u.is_deleted)) = true := by
    cases cd <;> simp [User.is_locked, User.is_deleted, hl, hd]
  rw [if_pos hg, if_neg hpass]
  rfl

theorem authTry_right (cd sl : Bool) (u : User) (pass : Str) (now : Int)
    (hl : u.locked = 0) (hd : u.deleted = 0) (hpass : u.password = pass) :
    authTry cd sl u pass now =
      (true, { u with fail_count := 0,
                      last_loggedin := if sl then now else u.last_loggedin }) := by
  unfold authTry
  have hg : (!u.is_locked && (!cd || !u.is_deleted)) = true := by
    cases cd <;> simp [User.is_locked, User.is_deleted, hl, hd]
  rw [if_pos hg, if_pos hpass]

theorem authTry_guard_off (cd sl : Bool) (u : User) (pass : Str) (now : Int)
    (hg : (!u.is_locked && (!cd || !u.is_deleted)) = false) :
    authTry cd sl u pass now = (false, u) := by
  unfold authTry
  rw [if_neg (by simp [hg])]

theorem authTry_locked2 (cd sl : Bool) (u : User) (pass : Str) (now : Int)
    (hl : u.locked ≠ 0) : authTry cd sl u pass now = (false, u) := by
  apply authTry_guard_off
  simp [User.is_locked, hl]

theorem mgrFind_created (m : Manager) (base : Str → Option Str) (name : Str) (u : User)
    (hc : alookup m.created_users name = some u) : mgrFind m base name = some u := by
  unfold mgrFind
  simp [hc]

theorem mgrFind_updated (m : Manager) (base : Str → Option Str) (name : Str) (u : User)
    (hc : alookup m.created_users name = none)
    (hu : alookup m.updated_users name = some u) : mgrFind m base name = some u := by
  unfold mgrFind
  simp [hc, hu]

theorem mgrFind_cases (m : Manager) (base : Str → Option Str) (name : Str) (u : User)
    (hf : mgrFind m base name = some u) :
    alookup m.created_users name = some u ∨
    (alookup m.created_users name = none ∧ alookup m.updated_users name = some u) ∨
    (alookup m.created_users name = none ∧ alookup m.updated_users name = none ∧
      ∃ s, base name = some s ∧ User.parse name s = u) := by
  unfold mgrFind at hf
  cases hc : alookup m.created_users name with
  | some u0 =>
    simp only [hc] at hf
    exact Or.inl hf
  | none =>
    simp only [hc] at hf
    cases hu : alookup m.updated_users name with
    | some u0 =>
      simp only [hu] at hf
      exact Or.inr (Or.inl ⟨rfl, hf⟩)
    | none =>
      simp only [hu] at hf
      cases hb : base name with
      | some s =>
        simp only [hb] at hf
        simp only [Option.map_some'] at hf
        exact Or.inr (Or.inr ⟨rfl, rfl, s, rfl, by injection hf⟩)
      | none =>
        simp only [hb] at hf
        cases hf

theorem auth_wrong_pass (m : Manager) (base : Str → Option Str) (name pass : Str) (now : Int)
    (u : User) (hf : mgrFind m base name = some u) (hl : u.locked = 0) (hd : u.deleted = 0)
    (hpass : ¬(u.password = pass)) :
    (auth m base name pass now).1 = .error AUTH_FAILED ∧
    mgrFind ((auth m base name pass now).2) base name = some (wrongUpd u now) := by
  rcases mgrFind_cases m base name u hf with hc | ⟨hc, hu⟩ | ⟨hc, hu, s, hb, hps⟩
  · have heq : auth m base name pass now =
        (.error AUTH_FAILED,
         { m with created_users := amodify m.created_users name (fun _ => wrongUpd u now) }) := by
      unfold auth
      simp [hc, authTry_wrong false false u pass now hl hd hpass]
    rw [heq]
    refine ⟨rfl, mgrFind_created _ base name _ ?_⟩
    rw [alookup_amodify, if_pos rfl, hc]
    rfl
  · have heq : auth m base name pass now =
        (.error AUTH_FAILED,
         { m with updated_users := amodify m.updated_users name (fun _ => wrongUpd u now) }) := by
      unfold auth
      simp [hc, hu, authTry_wrong true false u pass now hl hd hpass]
    rw [heq]
    refine ⟨rfl, mgrFind_updated _ base name _ hc ?_⟩
    rw [alookup_amodify, if_pos rfl, hu]
    rfl
  · subst hps
    have heq : auth m base name pass now =
        (.error AUTH_FAILED,
         { m with updated_users :=
            (name, wrongUpd (User.parse name s) now) :: m.updated_users }) := by
      unfold auth
      simp [hc, hu, hb, authTry_wrong true false _ pass now hl hd hpass]
    rw [heq]
    refine ⟨rfl, mgrFind_updated _ base name _ hc ?_⟩
    rw [alookup_cons, if_pos rfl]

theorem auth_locked (m : Manager) (base : Str → Option Str) (name pass : Str) (now : Int)
    (v : User) (hf : mgrFind m base name = some v) (hl : v.locked ≠ 0) :
    (auth m base name pass now).1 = .error AUTH_FAILED ∧
    mgrFind ((auth m base name pass now).2) base name = some v := by
  rcases mgrFind_cases m base name v hf with hc | ⟨hc, hu⟩ | ⟨hc, hu, s, hb, hps⟩
  · have heq : auth m base name pass now =
        (.error AUTH_FAILED,
         { m with created_users := amodify m.created_users name (fun _ => v) }) := by
      unfold auth
      simp [hc, authTry_locked2 false false v pass now hl]
    rw [heq]
    refine ⟨rfl, mgrFind_created _ base name _ ?_⟩
    rw [alookup_amodify, if_pos rfl, hc]
    rfl
  · have heq : auth m base name pass now =
        (.error AUTH_FAILED,
         { m with updated_users := amodify m.updated_users name (fun _ => v) }) := by
      unfold auth
      simp [hc, hu, authTry_locked2 true false v pass now hl]
    rw [heq]
    refine ⟨rfl, mgrFind_updated _ base name _ hc ?_⟩
    rw [alookup_amodify, if_pos rfl, hu]
    rfl
  · subst hps
    have heq : auth m base name pass now =
        (.error AUTH_FAILED,
         { m with updated_users := (name, User.parse name s) :: m.updated_users }) := by
      unfold auth
      simp [hc, hu, hb, authTry_locked2 true false _ pass now hl]
    rw [heq]
    refine ⟨rfl, mgrFind_updated _ base name _ hc ?_⟩
    rw [alookup_cons, if_pos rfl]

theorem login_wrong_pass (m : Manager) (base : Str → Option Str) (name pass : Str)
    (now : Int) (rand : List Nat) (u : User)
    (hf : mgrFind m base name = some u) (hl : u.locked = 0) (hd : u.deleted = 0)
    (hpass : ¬(u.password = pass)) :
    (login m base name pass now rand).1 = .error LOGIN_FAILED ∧
    mgrFind ((login m base name pass now rand).2) base name = some (wrongUpd u now) := by
  rcases mgrFind_cases m base name u hf with hc | ⟨hc, hu⟩ | ⟨hc, hu, s, hb, hps⟩
  · have heq : login m base name pass now rand =
        (.error LOGIN_FAILED,
         { m with created_users := amodify m.created_users name (fun _ => wrongUpd u now) }) := by
      unfold login
      simp [hc, authTry_wrong false true u pass now hl hd hpass]
    rw [heq]
    refine ⟨rfl, mgrFind_created _ base name _ ?_⟩
    rw [alookup_amodify, if_pos rfl, hc]
    rfl
  · have heq : login m base name pass now rand =
        (.error LOGIN_FAILED,
         { m with updated_users := amodify m.updated_users name (fun _ => wrongUpd u now) }) := by
      unfold login
      simp [hc, hu, authTry_wrong true true u pass now hl hd hpass]
    rw [heq]
    refine ⟨rfl, mgrFind_updated _ base name _ hc ?_⟩
    rw [alookup_amodify, if_pos rfl, hu]
    rfl
  · subst hps
    have heq : login m base name pass now rand =
        (.error LOGIN_FAILED,
         { m with updated_users :=
            (name, wrongUpd (User.parse name s) now) :: m.updated_users }) := by
      unfold login
      simp [hc, hu, hb, authTry_wrong true true _ pass now hl hd hpass]
    rw [heq]
    refine ⟨rfl, mgrFind_updated _ base name _ hc ?_⟩
    rw [alookup_cons, if_pos rfl]

theorem login_locked (m : Manager) (base : Str → Option Str) (name pass : Str)
    (now : Int) (rand : List Nat) (v : User)
    (hf : mgrFind m base name = some v) (hl : v.locked ≠ 0) :
    (login m base name pass now rand).1 = .error LOGIN_FAILED ∧
    mgrFind ((login m base name pass now rand).2) base name = some v := by
  rcases mgrFind_cases m base name v hf with hc | ⟨hc, hu⟩ | ⟨hc, hu, s, hb, hps⟩
  · have heq : login m base name pass now rand =
        (.error LOGIN_FAILED,
         { m with created_users := amodify m.created_users name (fun _ => v) }) := by
      unfold login
      simp [hc, authTry_locked2 false true v pass now hl]
    rw [heq]
    refine ⟨rfl, mgrFind_created _ base name _ ?_⟩
    rw [alookup_amodify, if_pos rfl, hc]
    rfl
  · have heq : login m base name pass now rand =
        (.error LOGIN_FAILED,
         { m with updated_users := amodify m.updated_users name (fun _ => v) }) := by
      unfold login
      simp [hc, hu, authTry_locked2 true true v pass now hl]
    rw [heq]
    refine ⟨rfl, mgrFind_updated _ base name _ hc ?_⟩
    rw [alookup_amodify, if_pos rfl, hu]
    rfl
  · subst hps
    have heq : login m base name pass now rand =
        (.error LOGIN_FAILED,
         { m with updated_users := (name, User.parse name s) :: m.updated_users }) := by
      unfold login
      simp [hc, hu, hb, authTry_locked2 true true _ pass now hl]
    rw [heq]
    refine ⟨rfl, mgrFind_updated _ base name _ hc ?_⟩
    rw [alookup_cons, if_pos rfl]

/-- C3 (amended): a wrong-password `auth` or `login` on a live record
stamps `failed := now`, increments `fail_count` (as a `u64`), and sets
`locked := failed` as soon as the count reaches `LOCK_COUNT`; provided the
clock value `now` is non-zero the locked record satisfies `is_locked`;
and a record satisfying `is_locked` makes every auth and login on that
name fail — whatever the password — while leaving the record in place. -/
theorem lockout_spec (m : Manager) (base : Str → Option Str) (name pass : Str) (now : Int)
    (rand : List Nat) (u : User)
    (hf : mgrFind m base name = some u) (hl : u.locked = 0) (hd : u.deleted = 0)
    (hw : ¬(u.password = pass)) :
    ((auth m base name pass now).1 = .error AUTH_FAILED ∧
      mgrFind ((auth m base name pass now).2) base name = some (wrongUpd u now)) ∧
    ((login m base name pass now rand).1 = .error LOGIN_FAILED ∧
      mgrFind ((login m base name pass now rand).2) base name = some (wrongUpd u now)) ∧
    ((wrongUpd u now).failed = now ∧
      (wrongUpd u now).fail_count = (u.fail_count + 1) % 2 ^ 64) ∧
    (LOCK_COUNT ≤ (u.fail_count + 1) % 2 ^ 64 →
      (wrongUpd u now).locked = now ∧ (now ≠ 0 → (wrongUpd u now).is_locked = true)) ∧
    (∀ m2 pass2 now2 rand2 v, mgrFind m2 base name = some v → v.is_locked = true →
      (auth m2 base name pass2 now2).1 = .error AUTH_FAILED ∧
      mgrFind ((auth m2 base name pass2 now2).2) base name = some v ∧
      (login m2 base name pass2 now2 rand2).1 = .error LOGIN_FAILED ∧
      mgrFind ((login m2 base name pass2 now2 rand2).2) base name = some v) := by
  refine ⟨auth_wrong_pass m base name pass now u hf hl hd hw,
          login_wrong_pass m base name pass now rand u hf hl hd hw,
          ⟨rfl, rfl⟩, ?_, ?_⟩
  · intro hth
    constructor
    · show (if LOCK_COUNT ≤ (u.fail_count + 1) % 2 ^ 64 then now else u.locked) = now
      rw [if_pos hth]
    · intro hnow
      have hlock : (wrongUpd u now).locked = now := by
        show (if LOCK_COUNT ≤ (u.fail_count + 1) % 2 ^ 64 then now else u.locked) = now
        rw [if_pos hth]
      simp [User.is_locked, hlock, hnow]
  · intro m2 pass2 now2 rand2 v hfv hlv
    have hlv2 : v.locked ≠ 0 := by
      by_contra hz
      simp [User.is_locked, hz] at hlv
    obtain ⟨ha1, ha2⟩ := auth_locked m2 base name pass2 now2 v hfv hlv2
    obtain ⟨hb1, hb2⟩ := login_locked m2 base name pass2 now2 rand2 v hfv hlv2
    exact ⟨ha1, ha2, hb1, hb2⟩

/-- C3 counterexample: with clock value 0 at the locking attempt, the code
stores `locked := failed := 0`, so a record that has just reached
`fail_count = 5 = LOCK_COUNT` does not satisfy `is_locked`, and the next
auth with the correct password succeeds — refuting the claim that
`fail_count ≥ LOCK_COUNT` implies `is_locked` and permanent rejection. -/
theorem lockout_cex :
    (let u4 : User := ⟨['a'], ['p'], 1, 0, 0, 0, 0, 4, 0⟩
     let m0 : Manager := ⟨0, [], [(['a'], u4)], []⟩
     let m1 := (auth m0 (fun _ => none) ['a'] ['x'] 0).2
     ((alookup m1.created_users ['a']).getD u4).fail_count = 5 ∧
     LOCK_COUNT ≤ ((alookup m1.created_users ['a']).getD u4).fail_count ∧
     ((alookup m1.created_users ['a']).getD u4).is_locked = false ∧
     exceptIsOk (auth m1 (fun _ => none) ['a'] ['p'] 9).1 = true) := by decide

theorem lockout_spec_witness :
    (wrongUpd ⟨['a'], ['p'], 1, 0, 0, 0, 0, 4, 0⟩ 7).is_locked = true :=
  (((lockout_spec ⟨0, [], [(['a'], ⟨['a'], ['p'], 1, 0, 0, 0, 0, 4, 0⟩)], []⟩
      (fun _ => none) ['a'] ['x'] 7 [] ⟨['a'], ['p'], 1, 0, 0, 0, 0, 4, 0⟩
      (by decide) rfl rfl (by decide)).2.2.2.1 (by decide)).2 (by decide))

/-! C8: no operation clears a lock. -/

/-- A record present in a tier both before and after keeps a non-zero
`locked` stamp. -/
def keptL (l l2 : List (Str × User)) : Prop :=
  ∀ n u u2, alookup l n = some u → alookup l2 n = some u2 →
    u.locked ≠ 0 → u2.locked ≠ 0

/-- Lock preservation over both overlay tiers of the manager. -/
def lockKept (m m2 : Manager) : Prop :=
  keptL m.created_users m2.created_users ∧ keptL m.updated_users m2.updated_users

theorem keptL_refl (l : List (Str × User)) : keptL l l := by
  intro n u u2 h1 h2 hl
  rw [h1] at h2
  injection h2 with h3
  rw [← h3]
  exact hl

theorem keptL_amodify (l : List (Str × User)) (k : Str) (f : User → User)
    (hf : ∀ w, alookup l k = some w → w.locked ≠ 0 → (f w).locked ≠ 0) :
    keptL l (amodify l k f) := by
  intro n u u2 h1 h2 hl
  rw [alookup_amodify] at h2
  by_cases hn : n = k
  · rw [if_pos hn] at h2
    subst hn
    rw [h1] at h2
    simp only [Option.map_some'] at h2
    injection h2 with h3
    rw [← h3]
    exact hf u h1 hl
  · rw [if_neg hn] at h2
    rw [h1] at h2
    injection h2 with h3
    rw [← h3]
    exact hl

theorem keptL_erase (l : List (Str × User)) (k : Str) : keptL l (aerase l k) := by
  intro n u u2 h1 h2 hl
  rw [alookup_aerase] at h2
  by_cases hn : n = k
  · rw [if_pos hn] at h2
    cases h2
  · rw [if_neg hn] at h2
    rw [h1] at h2
    injection h2 with h3
    rw [← h3]
    exact hl

theorem keptL_prepend (l : List (Str × User)) (k : Str) (w : User)
    (hk : alookup l k = none) : keptL l ((k, w) :: l) := by
  intro n u u2 h1 h2 hl
  rw [alookup_cons] at h2
  by_cases hn : n = k
  · subst hn
    rw [h1] at hk
    cases hk
  · rw [if_neg hn] at h2
    rw [h1] at h2
    injection h2 with h3
    rw [← h3]
    exact hl

theorem keptL_nil (l : List (Str × User)) : keptL l [] := by
  intro n u u2 _ h2 _
  cases h2

theorem authTry_locked_mono (cd sl : Bool) (u : User) (pass : Str) (now : Int)
    (h : u.locked ≠ 0) : ((authTry cd sl u pass now).2).locked ≠ 0 := by
  rw [authTry_locked2 cd sl u pass now h]
  exact h

theorem lockKept_auth (m : Manager) (base : Str → Option Str) (name pass : Str) (now : Int) :
    lockKept m (auth m base name pass now).2 := by
  cases hc : alookup m.created_users name with
  | some u0 =>
    have hm : (auth m base name pass now).2 =
        { m with created_users :=
          amodify m.created_users name (fun _ => (authTry false false u0 pass now).2) } := by
      unfold auth
      simp [hc]
    rw [hm]
    constructor
    · exact keptL_amodify m.created_users name
        (fun _ => (authTry false false u0 pass now).2) (fun w hw hwl => by
          rw [hc] at hw
          injection hw with hww
          rw [← hww] at hwl
          exact authTry_locked_mono false false u0 pass now hwl)
    · exact keptL_refl m.updated_users
  | none =>
    cases hu : alookup m.updated_users name with
    | some u0 =>
      have hm : (auth m base name pass now).2 =
          { m with updated_users :=
            amodify m.updated_users name (fun _ => (authTry true false u0 pass now).2) } := by
        unfold auth
        simp [hc, hu]
      rw [hm]
      constructor
      · exact keptL_refl m.created_users
      · exact keptL_amodify m.updated_users name
          (fun _ => (authTry true false u0 pass now).2) (fun w hw hwl => by
            rw [hu] at hw
            injection hw with hww
            rw [← hww] at hwl
            exact authTry_locked_mono true false u0 pass now hwl)
    | none =>
      cases hb : base name with
      | some s =>
        have hm : (auth m base name pass now).2 =
            { m with updated_users :=
              (name, (authTry true false (User.parse name s) pass now).2) ::
                m.updated_users } := by
          unfold auth
          simp [hc, hu, hb]
        rw [hm]
        exact ⟨keptL_refl m.created_users, keptL_prepend m.updated_users name _ hu⟩
      | none =>
        have hm : (auth m base name pass now).2 = m := by
          unfold auth
          simp [hc, hu, hb]
        rw [hm]
        exact ⟨keptL_refl _, keptL_refl _⟩

theorem lockKept_login (m : Manager) (base : Str → Option Str) (name pass : Str)
    (now : Int) (rand : List Nat) :
    lockKept m (login m base name pass now rand).2 := by
  cases hc : alookup m.created_users name with
  | some u0 =>
    have hm : ((login m base name pass now rand).2).created_users =
          amodify m.created_users name (fun _ => (authTry false true u0 pass now).2) ∧
        ((login m base name pass now rand).2).updated_users = m.updated_users := by
      unfold login mintSession
      by_cases hr : (authTry false true u0 pass now).1 <;> simp [hc, hr]
    refine ⟨hm.1 ▸ ?_, hm.2 ▸ keptL_refl m.updated_users⟩
    apply keptL_amodify
    intro w hw hwl
    rw [hc] at hw
    injection hw with hww
    rw [← hww] at hwl
    exact authTry_locked_mono false true u0 pass now hwl
  | none =>
    cases hu : alookup m.updated_users name with
    | some u0 =>
      have hm : ((login m base name pass now rand).2).created_users = m.created_users ∧
          ((login m base name pass now rand).2).updated_users =
            amodify m.updated_users name (fun _ => (authTry true true u0 pass now).2) := by
        unfold login mintSession
        by_cases hr : (authTry true true u0 pass now).1 <;> simp [hc, hu, hr]
      refine ⟨hm.1 ▸ keptL_refl m.created_users, hm.2 ▸ ?_⟩
      apply keptL_amodify
      intro w hw hwl
      rw [hu] at hw
      injection hw with hww
      rw [← hww] at hwl
      exact authTry_locked_mono true true u0 pass now hwl
    | none =>
      cases hb : base name with
      | some s =>
        have hm : ((login m base name pass now rand).2).created_users = m.created_users ∧
            ((login m base name pass now rand).2).updated_users =
              (name, (authTry true true (User.parse name s) pass now).2) ::
                m.updated_users := by
          unfold login mintSession
          by_cases hr : (authTry true true (User.parse name s) pass now).1 <;>
            simp [hc, hu, hb, hr]
        exact ⟨hm.1 ▸ keptL_refl m.created_users,
               hm.2 ▸ keptL_prepend m.updated_users name _ hu⟩
      | none =>
        have hm : (login m base name pass now rand).2 = m := by
          unfold login
          simp [hc, hu, hb]
        rw [hm]
        exact ⟨keptL_refl _, keptL_refl _⟩

theorem lockKept_create_user (m : Manager) (base : Str → Option Str) (name pass : Str)
    (now : Int) (rand : List Nat) :
    lockKept m (create_user m base name pass now rand).2 := by
  by_cases hcond : (alookup m.created_users name).isNone ∧
      (alookup m.updated_users name).isNone ∧ (base name).isNone
  · have hm : ((create_user m base name pass now rand).2).created_users =
          (name, User.new name pass now) :: m.created_users ∧
        ((create_user m base name pass now rand).2).updated_users = m.updated_users := by
      unfold create_user mintSession
      rw [if_pos hcond]
      exact ⟨rfl, rfl⟩
    have hnone : alookup m.created_users name = none := by
      have := hcond.1
      cases h : alookup m.created_users name
      · rfl
      · rw [h] at this
        cases this
    exact ⟨hm.1 ▸ keptL_prepend m.created_users name _ hnone,
           hm.2 ▸ keptL_refl m.updated_users⟩
  · have hm : (create_user m base name pass now rand).2 = m := by
      unfold create_user
      rw [if_neg hcond]
    rw [hm]
    exact ⟨keptL_refl _, keptL_refl _⟩

theorem lockKept_update_user (m : Manager) (base : Str → Option Str) (name pass : Str)
    (now : Int) :
    lockKept m (update_user m base name pass now).2 := by
  cases hc : alookup m.created_users name with
  | some u0 =>
    have hm : ((update_user m base name pass now).2).created_users =
          amodify m.created_users name (fun u => { u with password := pass, updated := now }) ∧
        ((update_user m base name pass now).2).updated_users = m.updated_users := by
      unfold update_user
      simp [hc]
    refine ⟨hm.1 ▸ ?_, hm.2 ▸ keptL_refl m.updated_users⟩
    apply keptL_amodify
    intro w _ hwl
    exact hwl
  | none =>
    cases hu : alookup m.updated_users name with
    | some u0 =>
      by_cases hdel : u0.is_deleted
      · have hm : (update_user m base name pass now).2 = m := by
          unfold update_user
          simp [hc, hu, hdel]
        rw [hm]
        exact ⟨keptL_refl _, keptL_refl _⟩
      · have hm : ((update_user m base name pass now).2).created_users = m.created_users ∧
            ((update_user m base name pass now).2).updated_users =
              amodify m.updated_users name
                (fun v => { v with password := pass, updated := now }) := by
          unfold update_user
          simp [hc, hu, hdel]
        refine ⟨hm.1 ▸ keptL_refl m.created_users, hm.2 ▸ ?_⟩
        apply keptL_amodify
        intro w _ hwl
        exact hwl
    | none =>
      cases hb : base name with
      | some s =>
        by_cases hdel : (User.parse name s).is_deleted
        · have hm : (update_user m base name pass now).2 = m := by
            unfold update_user
            simp [hc, hu, hb, hdel]
          rw [hm]
          exact ⟨keptL_refl _, keptL_refl _⟩
        · have hm : ((update_user m base name pass now).2).created_users = m.created_users ∧
              ((update_user m base name pass now).2).updated_users =
                (name, { User.parse name s with password := pass, updated := now }) ::
                  m.updated_users := by
            unfold update_user
            simp [hc, hu, hb, hdel]
          exact ⟨hm.1 ▸ keptL_refl m.created_users,
                 hm.2 ▸ keptL_prepend m.updated_users name _ hu⟩
      | none =>
        have hm : (update_user m base name pass now).2 = m := by
          unfold update_user
          simp [hc, hu, hb]
        rw [hm]
        exact ⟨keptL_refl _, keptL_refl _⟩

theorem lockKept_delete_user (m : Manager) (base : Str → Option Str) (name : Str)
    (now : Int) :
    lockKept m (delete_user m base name now).2 := by
  by_cases hc : (alookup m.created_users name).isSome
  · have hm : ((delete_user m base name now).2).created_users =
          aerase m.created_users name ∧
        ((delete_user m base name now).2).updated_users = m.updated_users := by
      unfold delete_user
      simp [hc]
    exact ⟨hm.1 ▸ keptL_erase m.created_users name, hm.2 ▸ keptL_refl m.updated_users⟩
  · cases hu : alookup m.updated_users name with
    | some u0 =>
      by_cases hdel : u0.is_deleted
      · have hm : (delete_user m base name now).2 = m := by
          unfold delete_user
          simp [hc, hu, hdel]
        rw [hm]
        exact ⟨keptL_refl _, keptL_refl _⟩
      · have hm : ((delete_user m base name now).2).created_users = m.created_users ∧
            ((delete_user m base name now).2).updated_users =
              amodify m.updated_users name (fun v => { v with deleted := now }) := by
          unfold delete_user
          simp [hc, hu, hdel]
        refine ⟨hm.1 ▸ keptL_refl m.created_users, hm.2 ▸ ?_⟩
        apply keptL_amodify
        intro w _ hwl
        exact hwl
    | none =>
      cases hb : base name with
      | some s =>
        by_cases hdel : (User.parse name s).is_deleted
        · have hm : (delete_user m base name now).2 = m := by
            unfold delete_user
            simp [hc, hu, hb, hdel]
          rw [hm]
          exact ⟨keptL_refl _, keptL_refl _⟩
        · have hm : ((delete_user m base name now).2).created_users = m.created_users ∧
              ((delete_user m base name now).2).updated_users =
                (name, { User.parse name s with deleted := now }) :: m.updated_users := by
            unfold delete_user
            simp [hc, hu, hb, hdel]
          exact ⟨hm.1 ▸ keptL_refl m.created_users,
                 hm.2 ▸ keptL_prepend m.updated_users name _ hu⟩
      | none =>
        have hm : (delete_user m base name now).2 = m := by
          unfold delete_user
          simp [hc, hu, hb]
        rw [hm]
        exact ⟨keptL_refl _, keptL_refl _⟩

theorem lockKept_save (m : Manager) (env : SaveEnv) : lockKept m (save m env).mgr := by
  rw [save_mgr_eq]
  by_cases h : exceptIsOk (save m env).res = true
  · rw [if_pos h]
    exact ⟨keptL_nil _, keptL_nil _⟩
  · rw [if_neg h]
    exact ⟨keptL_refl _, keptL_refl _⟩

theorem authTry_true_elim (cd sl : Bool) (u : User) (pass : Str) (now : Int)
    (h : (authTry cd sl u pass now).1 = true) :
    (authTry cd sl u pass now).2 =
      { u with fail_count := 0, last_loggedin := if sl then now else u.last_loggedin } := by
  unfold authTry at h ⊢
  by_cases hg : (!u.is_locked && (!cd || !u.is_deleted)) = true
  · rw [if_pos hg] at h ⊢
    by_cases hp : u.password = pass
    · rw [if_pos hp]
    · rw [if_neg hp] at h
      exact Bool.noConfusion h
  · rw [if_neg hg] at h
    exact Bool.noConfusion h

theorem auth_success (m : Manager) (base : Str → Option Str) (name pass : Str) (now : Int)
    (u : User) (hf : mgrFind m base name = some u)
    (hok : (auth m base name pass now).1 = .ok ()) :
    mgrFind ((auth m base name pass now).2) base name = some { u with fail_count := 0 } := by
  rcases mgrFind_cases m base name u hf with hc | ⟨hc, hu⟩ | ⟨hc, hu, s, hb, hps⟩
  · have hm2 : auth m base name pass now =
        (if (authTry false false u pass now).1 then .ok () else .error AUTH_FAILED,
         { m with created_users :=
            amodify m.created_users name (fun _ => (authTry false false u pass now).2) }) := by
      unfold auth
      simp [hc]
    have hr : (authTry false false u pass now).1 = true := by
      cases hr1 : (authTry false false u pass now).1
      · rw [hm2] at hok
        simp [hr1] at hok
      · rfl
    rw [hm2]
    refine mgrFind_created _ base name _ ?_
    rw [alookup_amodify, if_pos rfl, hc]
    simp only [Option.map_some']
    rw [authTry_true_elim false false u pass now hr]
    rfl
  · have hm2 : auth m base name pass now =
        (if (authTry true false u pass now).1 then .ok () else .error AUTH_FAILED,
         { m with updated_users :=
            amodify m.updated_users name (fun _ => (authTry true false u pass now).2) }) := by
      unfold auth
      simp [hc, hu]
    have hr : (authTry true false u pass now).1 = true := by
      cases hr1 : (authTry true false u pass now).1
      · rw [hm2] at hok
        simp [hr1] at hok
      · rfl
    rw [hm2]
    refine mgrFind_updated _ base name _ hc ?_
    rw [alookup_amodify, if_pos rfl, hu]
    simp only [Option.map_some']
    rw [authTry_true_elim true false u pass now hr]
    rfl
  · subst hps
    have hm2 : auth m base name pass now =
        (if (authTry true false (User.parse name s) pass now).1 then .ok ()
          else .error AUTH_FAILED,
         { m with updated_users :=
            (name, (authTry true false (User.parse name s) pass now).2) ::
              m.updated_users }) := by
      unfold auth
      simp [hc, hu, hb]
    have hr : (authTry true false (User.parse name s) pass now).1 = true := by
      cases hr1 : (authTry true false (User.parse name s) pass now).1
      · rw [hm2] at hok
        simp [hr1] at hok
      · rfl
    rw [hm2]
    refine mgrFind_updated _ base name _ hc ?_
    rw [alookup_cons, if_pos rfl]
    rw [authTry_true_elim true false (User.parse name s) pass now hr]
    rfl

theorem update_user_success (m : Manager) (base : Str → Option Str) (name pass : Str)
    (now : Int) (u : User) (hf : mgrFind m base name = some u)
    (hok : (update_user m base name pass now).1 = .ok ()) :
    mgrFind ((update_user m base name pass now).2) base name =
      some { u with password := pass, updated := now } := by
  rcases mgrFind_cases m base name u hf with hc | ⟨hc, hu⟩ | ⟨hc, hu, s, hb, hps⟩
  · have hm2 : update_user m base name pass now =
        (.ok (), { m with created_users := amodify m.created_users name (fun w => { w with password := pass, updated := now }) }) := by
      unfold update_user
      simp [hc]
    rw [hm2]
    refine mgrFind_created _ base name _ ?_
    rw [alookup_amodify, if_pos rfl, hc]
    rfl
  · by_cases hdel : u.is_deleted
    · have hm2 : update_user m base name pass now = (.error USER_NOT_FOUND, m) := by
        unfold update_user
        simp [hc, hu, hdel]
      rw [hm2] at hok
      exact Except.noConfusion hok
    · have hm2 : update_user m base name pass now =
          (.ok (), { m with updated_users := amodify m.updated_users name (fun v => { v with password := pass, updated := now }) }) := by
        unfold update_user
        simp [hc, hu, hdel]
      rw [hm2]
      refine mgrFind_updated _ base name _ hc ?_
      rw [alookup_amodify, if_pos rfl, hu]
      rfl
  · subst hps
    by_cases hdel : (User.parse name s).is_deleted
    · have hm2 : update_user m base name pass now = (.error USER_NOT_FOUND, m) := by
        unfold update_user
        simp [hc, hu, hb, hdel]
      rw [hm2] at hok
      exact Except.noConfusion hok
    · have hm2 : update_user m base name pass now =
          (.ok (), { m with updated_users := (name, { User.parse name s with password := pass, updated := now }) :: m.updated_users }) := by
        unfold update_user
        simp [hc, hu, hb, hdel]
      rw [hm2]
      refine mgrFind_updated _ base name _ hc ?_
      rw [alookup_cons, if_pos rfl]

/-- C8: no manager operation ever clears a lock — for each of the six
operations, a record present in an overlay tier both before and after the
call under the same name keeps `locked ≠ 0`; in particular a successful
`update_user` changes only `password` and `updated` on the target record,
and a successful `auth` resets only `fail_count` — never `locked`. -/
theorem ops_never_clear_lock (m : Manager) (base : Str → Option Str) (name pass : Str)
    (now : Int) (rand : List Nat) (env : SaveEnv) :
    lockKept m (auth m base name pass now).2 ∧
    lockKept m (login m base name pass now rand).2 ∧
    lockKept m (create_user m base name pass now rand).2 ∧
    lockKept m (update_user m base name pass now).2 ∧
    lockKept m (delete_user m base name now).2 ∧
    lockKept m (save m env).mgr ∧
    (∀ u, mgrFind m base name = some u → (update_user m base name pass now).1 = .ok () →
      mgrFind ((update_user m base name pass now).2) base name =
        some { u with password := pass, updated := now }) ∧
    (∀ u, mgrFind m base name = some u → (auth m base name pass now).1 = .ok () →
      mgrFind ((auth m base name pass now).2) base name = some { u with fail_count := 0 }) :=
  ⟨lockKept_auth m base name pass now,
   lockKept_login m base name pass now rand,
   lockKept_create_user m base name pass now rand,
   lockKept_update_user m base name pass now,
   lockKept_delete_user m base name now,
   lockKept_save m env,
   fun u hf hok => update_user_success m base name pass now u hf hok,
   fun u hf hok => auth_success m base name pass now u hf hok⟩

theorem ops_never_clear_lock_witness :
    (⟨['a'], ['p'], 1, 0, 0, 0, 0, 5, 9⟩ : User).locked ≠ 0 :=
  ((ops_never_clear_lock ⟨0, [], [(['a'], ⟨['a'], ['p'], 1, 0, 0, 0, 0, 5, 9⟩)], []⟩
      (fun _ => none) ['a'] ['p'] 3 [] ⟨none, true, true, none, true, true, true, []⟩).1).1
    ['a'] ⟨['a'], ['p'], 1, 0, 0, 0, 0, 5, 9⟩ ⟨['a'], ['p'], 1, 0, 0, 0, 0, 5, 9⟩
    (by decide) (by decide) (by decide)
